import Mathlib

/-!
Shallow embedding of the triagebot decision-process core:
the command parser (parser/src/command/decision.rs), the decision
engine (src/handlers/decision.rs) and the job dispatcher
(src/handlers/jobs.rs).

Stateful and effectful code is modelled by explicit environments
(results of the collaborator calls the handlers make) and by an
ordered list of emitted effects (comments posted, state rows and
job rows inserted).  Timestamps are integer seconds; the chrono
value Duration.days 10 is exactly ten 86400-second days.
-/

set_option autoImplicit false

/-- Resolution enum from parser/src/command/decision.rs. -/
inductive Resolution where
  | Merge
  | Hold
deriving DecidableEq, Repr

/-- Reversibility enum from parser/src/command/decision.rs. -/
inductive Reversibility where
  | Reversible
  | Irreversible
deriving DecidableEq, Repr

/-- DecisionCommand struct from parser/src/command/decision.rs. -/
structure DecisionCommand where
  resolution : Resolution
  reversibility : Reversibility
deriving DecidableEq, Repr

/-- UserStatus record (fields as constructed in src/handlers/decision.rs). -/
structure UserStatus where
  comment_id : String
  text : String
  reversibility : Reversibility
  resolution : Resolution
deriving DecidableEq, Repr

/-- Tokens of the comment tokenizer that the decision parser inspects:
word tokens, the literal dot, and the end-of-line marker produced at end
of input. -/
inductive Token where
  | Word (w : String)
  | Dot
  | EndOfLine
deriving DecidableEq, Repr

/-- ParseError enum from parser/src/command/decision.rs. -/
inductive ParseError where
  | ExpectedEnd
deriving DecidableEq, Repr

/-- Peek the next token of the cursor; at end of input the tokenizer
yields the EndOfLine marker. -/
def peekToken : List Token → Option Token
  | [] => some Token.EndOfLine
  | t :: _ => some t

/-- Advance the cursor past one token. -/
def nextToken : List Token → List Token
  | [] => []
  | _ :: rest => rest

/-- is_token_eol from parser/src/command/decision.rs. -/
def is_token_eol (token : Option Token) : Bool :=
  match token with
  | some Token.Dot => true
  | some Token.EndOfLine => true
  | _ => false

/-- DecisionCommand::parse from parser/src/command/decision.rs.  The Rust
function receives the caller's tokenizer by mutable reference, clones it,
works on the clone and writes the clone back only on success; we return
the parse outcome together with the final state of the caller's cursor. -/
def DecisionCommand.parse (input : List Token) :
    Except ParseError (Option DecisionCommand) × List Token :=
  match peekToken input with
  | some (Token.Word w) =>
    if w = "merge" then
      let toks := nextToken input
      if is_token_eol (peekToken toks) then
        (Except.ok (some { resolution := Resolution.Merge,
                           reversibility := Reversibility.Reversible }),
         nextToken toks)
      else
        (Except.error ParseError.ExpectedEnd, input)
    else if w = "hold" then
      let toks := nextToken input
      if is_token_eol (peekToken toks) then
        (Except.ok (some { resolution := Resolution.Hold,
                           reversibility := Reversibility.Reversible }),
         nextToken toks)
      else
        (Except.error ParseError.ExpectedEnd, input)
    else
      (Except.ok none, input)
  | _ => (Except.ok none, input)

/-- Modelled from the spec: the tokenizer itself (parser/src/token.rs) is
not under src/; per the spec grammar, words are whitespace-separated,
a literal dot is its own token, and end of input yields the EndOfLine
marker (represented here by peekToken returning EndOfLine on the empty
cursor). -/
def flush_word (acc : List Char) (rest : List Token) : List Token :=
  match acc with
  | [] => rest
  | _ => Token.Word (String.mk acc.reverse) :: rest

/-- Character-level worker for tokenize; acc holds the current word
reversed. -/
def tokenize_chars : List Char → List Char → List Token
  | [], acc => flush_word acc []
  | c :: cs, acc =>
    if c = ' ' then flush_word acc (tokenize_chars cs [])
    else if c = '.' then flush_word acc (Token.Dot :: tokenize_chars cs [])
    else tokenize_chars cs (c :: acc)

/-- Tokenize a comment string into the token stream the parser consumes. -/
def tokenize (s : String) : List Token :=
  tokenize_chars s.data []

/-- Minimal JSON value model for the serde_json values crossing the job
metadata boundary. -/
inductive Json where
  | null
  | bool (b : Bool)
  | num (n : Int)
  | str (s : String)
  | arr (elems : List Json)
  | obj (fields : List (String × Json))

/-- Field lookup in a JSON object, first occurrence wins (serde map
access). -/
def get_field : List (String × Json) → String → Option Json
  | [], _ => none
  | (k, v) :: rest, key => if k = key then some v else get_field rest key

/-- Serde serialization of a unit enum variant: the variant name as a
JSON string.  Resolution derives Serialize with no rename attribute. -/
def Resolution.toJson : Resolution → Json
  | Resolution.Merge => Json.str "Merge"
  | Resolution.Hold => Json.str "Hold"

/-- Serde deserialization of Resolution from JSON. -/
def Resolution.fromJson : Json → Option Resolution
  | Json.str s =>
    if s = "Merge" then some Resolution.Merge
    else if s = "Hold" then some Resolution.Hold
    else none
  | _ => none

/-- DecisionProcessActionMetadata struct from src/handlers/decision.rs.
Note the second field is named get_issue_url in the source. -/
structure DecisionProcessActionMetadata where
  message : String
  get_issue_url : String
  status : Resolution
deriving DecidableEq, Repr

/-- Serde serialization of DecisionProcessActionMetadata: a JSON object
with the struct's fields in declaration order, keyed by field name. -/
def DecisionProcessActionMetadata.toJson (m : DecisionProcessActionMetadata) : Json :=
  Json.obj [("message", Json.str m.message),
            ("get_issue_url", Json.str m.get_issue_url),
            ("status", m.status.toJson)]

/-- Read a JSON string. -/
def Json.asString : Json → Option String
  | Json.str s => some s
  | _ => none

/-- Serde deserialization of DecisionProcessActionMetadata: requires an
object carrying all three fields with the right types. -/
def DecisionProcessActionMetadata.fromJson (j : Json) :
    Option DecisionProcessActionMetadata :=
  match j with
  | Json.obj fields => do
    let message ← (← get_field fields "message").asString
    let get_issue_url ← (← get_field fields "get_issue_url").asString
    let status ← Resolution.fromJson (← get_field fields "status")
    some { message := message, get_issue_url := get_issue_url, status := status }
  | _ => none

/-- BTreeMap.insert on the sorted-association-list model of
BTreeMap (String keys): keep keys strictly sorted, replace on equal
key. -/
def btInsert {α : Type} : List (String × α) → String → α → List (String × α)
  | [], k, v => [(k, v)]
  | (k', v') :: rest, k, v =>
    if k < k' then (k, v) :: (k', v') :: rest
    else if k = k' then (k, v) :: rest
    else (k', v') :: btInsert rest k v

/-- BTreeMap.get on the association-list model. -/
def btLookup {α : Type} : List (String × α) → String → Option α
  | [], _ => none
  | (k', v') :: rest, k => if k = k' then some v' else btLookup rest k

/-- resolution_to_str from src/handlers/decision.rs. -/
def resolution_to_str (resolution : Resolution) : String :=
  match resolution with
  | Resolution.Merge => "merge"
  | Resolution.Hold => "hold"

/-- One table row of the status comment: the member name, the history
votes struck through in order, then the current vote bold (empty when
the member has no current vote). -/
def render_row (user : String) (statuses : List UserStatus)
    (current_status : Option UserStatus) : String :=
  let user_statuses := "\n| " ++ user ++ " |"
  let user_statuses := statuses.foldl
    (fun acc status => acc ++ " ~~" ++ resolution_to_str status.resolution ++ "~~ ")
    user_statuses
  let user_resolution :=
    match current_status with
    | some status => resolution_to_str status.resolution
    | none => ""
  user_statuses ++ " **" ++ user_resolution ++ "** |"

/-- Row loop of build_status_comment.  The source unwraps the current
lookup of every member appearing in history; a missing entry is a panic,
modelled as none. -/
def build_rows (current : List (String × Option UserStatus)) :
    List (String × List UserStatus) → String → Option String
  | [], comment => some comment
  | (user, statuses) :: rest, comment =>
    match btLookup current user with
    | none => none
    | some current_status =>
      build_rows current rest (comment ++ render_row user statuses current_status)

/-- build_status_comment from src/handlers/decision.rs.  Iterates the
history map only (in BTreeMap key order), appending one row per history
key; returns none exactly when the source panics. -/
def build_status_comment (history : List (String × List UserStatus))
    (current : List (String × Option UserStatus)) : Option String :=
  build_rows current history "| Team member | State |\n|-------------|-------|"

/-- IssueDecisionState aggregate, fields as passed to
insert_issue_decision_state at the call site in src/handlers/decision.rs. -/
structure IssueDecisionState where
  issue_id : Nat
  initiator : String
  period_start : Int
  period_end : Int
  current_statuses : List (String × Option UserStatus)
  status_history : List (String × List UserStatus)
  reversibility : Reversibility
  resolution : Resolution

/-- Environment of one handle_command invocation: the results of the
collaborator calls the handler makes (clock, membership check, state
load, team list) and the event data it reads. -/
structure Env where
  now : Int
  is_team_member : Option Bool
  existing_state : Option IssueDecisionState
  team_members : List String
  issue_number : Nat
  repository_url : String
  user_login : String

/-- Observable side effects of handle_command, in emission order. -/
inductive Effect where
  | PostComment (body : String)
  | InsertState (state : IssueDecisionState)
  | InsertJob (name : String) (due_at : Int) (metadata : Json)

/-- DECISION_PROCESS_JOB_NAME constant from src/handlers/decision.rs. -/
def DECISION_PROCESS_JOB_NAME : String := "decision_process_action"

/-- Seeding loop of the open-decision branch: every team member mapped
to no vote. -/
def seed_current (team : List String) : List (String × Option UserStatus) :=
  team.foldl (fun m member => btInsert m member none) []

/-- The fresh UserStatus the open-decision branch installs for the
invoking member; the source hard-codes every field. -/
def initial_user_status : UserStatus :=
  { comment_id := "comment_id"
    text := "something"
    reversibility := Reversibility.Reversible
    resolution := Resolution.Merge }

/-- current_statuses built by the open-decision branch: seed the team,
then overwrite the invoking member's entry. -/
def opened_current (env : Env) : List (String × Option UserStatus) :=
  btInsert (seed_current env.team_members) env.user_login (some initial_user_status)

/-- Job metadata built by the open-decision branch. -/
def opened_metadata (env : Env) : DecisionProcessActionMetadata :=
  { message := "some message"
    get_issue_url := env.repository_url ++ "/issues/" ++ toString env.issue_number
    status := Resolution.Merge }

/-- Decision state row inserted by the open-decision branch:
period_start is now, period_end is now plus Duration.days 10
(864000 seconds), history empty, reversibility from the command,
resolution Merge. -/
def opened_state (env : Env) (cmd : DecisionCommand) : IssueDecisionState :=
  { issue_id := env.issue_number
    initiator := env.user_login
    period_start := env.now
    period_end := env.now + 10 * 86400
    current_statuses := opened_current env
    status_history := []
    reversibility := cmd.reversibility
    resolution := Resolution.Merge }

/-- handle_command from src/handlers/decision.rs.  Collaborator calls
that the source merely propagates errors from are modelled as
succeeding; the membership check models unwrap_or false, so a failed
check behaves as non-membership.  The existing-state branch of the
source is commented out and returns Ok with no effects; the Hold
no-state branch likewise. -/
def handle_command (env : Env) (cmd : DecisionCommand) :
    Except Unit Unit × List Effect :=
  if env.is_team_member.getD false then
    match env.existing_state with
    | some _ => (Except.ok (), [])
    | none =>
      match cmd.resolution with
      | Resolution.Hold => (Except.ok (), [])
      | Resolution.Merge =>
        (Except.ok (),
         [Effect.InsertState (opened_state env cmd),
          Effect.InsertJob DECISION_PROCESS_JOB_NAME (opened_state env cmd).period_end
            (DecisionProcessActionMetadata.toJson (opened_metadata env)),
          Effect.PostComment ((build_status_comment [] (opened_current env)).getD "")])
  else
    (Except.ok (),
     [Effect.PostComment "Only team members can be part of the decision process."])

/-- Issue as far as the job dispatcher needs it. -/
structure Issue where
  number : Nat
deriving DecidableEq, Repr

/-- Environment of one handle_job invocation: the result of the issue
fetch the decision-process handler performs (none models a failed
fetch). -/
structure JobEnv where
  fetched_issue : Option Issue

/-- Observable side effects of handle_job. -/
inductive JobEffect where
  | DocsUpdate
  | RustcCommits
  | MergeIssue (issue : Issue)
  | CloseIssue (issue : Issue)
deriving DecidableEq, Repr

/-- decision_process_handler from src/handlers/jobs.rs: deserialize the
metadata (propagating failure), then fetch the issue; on success merge
or close according to status, on fetch failure log and succeed. -/
def decision_process_handler (env : JobEnv) (metadata : Json) :
    Except Unit Unit × List JobEffect :=
  match DecisionProcessActionMetadata.fromJson metadata with
  | none => (Except.error (), [])
  | some md =>
    match env.fetched_issue with
    | some issue =>
      match md.status with
      | Resolution.Merge => (Except.ok (), [JobEffect.MergeIssue issue])
      | Resolution.Hold => (Except.ok (), [JobEffect.CloseIssue issue])
    | none => (Except.ok (), [])

/-- handle_job from src/handlers/jobs.rs: route by job name; unmatched
names fall to the default arm, which logs and succeeds. -/
def handle_job (env : JobEnv) (name : String) (metadata : Json) :
    Except Unit Unit × List JobEffect :=
  if name = "docs_update" then (Except.ok (), [JobEffect.DocsUpdate])
  else if name = "rustc_commits" then (Except.ok (), [JobEffect.RustcCommits])
  else if name = DECISION_PROCESS_JOB_NAME then decision_process_handler env metadata
  else (Except.ok (), [])

/-! Helper lemmas about the association-list model of BTreeMap. -/

lemma btLookup_btInsert_self {α : Type} (m : List (String × α)) (k : String) (v : α) :
    btLookup (btInsert m k v) k = some v := by
  induction m with
  | nil => simp [btInsert, btLookup]
  | cons p rest ih =>
    obtain ⟨k', v'⟩ := p
    by_cases h1 : k < k'
    · simp [btInsert, h1, btLookup]
    · by_cases h2 : k = k'
      · simp [btInsert, h1, h2, btLookup]
      · simp [btInsert, h1, h2, btLookup, ih]

lemma btLookup_btInsert_ne {α : Type} (m : List (String × α)) (k k' : String) (v : α)
    (h : k' ≠ k) : btLookup (btInsert m k v) k' = btLookup m k' := by
  induction m with
  | nil => simp [btInsert, btLookup, h]
  | cons p rest ih =>
    obtain ⟨k0, v0⟩ := p
    by_cases h1 : k < k0
    · simp [btInsert, h1, btLookup, h]
    · by_cases h2 : k = k0
      · subst h2
        simp [btInsert, h1, btLookup, h]
      · simp [btInsert, h1, h2, btLookup, ih]

lemma seed_foldl_lookup (team : List String) (acc : List (String × Option UserStatus))
    (m : String) :
    btLookup (team.foldl (fun a member => btInsert a member none) acc) m =
      if m ∈ team then some none else btLookup acc m := by
  induction team generalizing acc with
  | nil => simp
  | cons x xs ih =>
    simp only [List.foldl_cons]
    rw [ih]
    by_cases hx : m = x
    · subst hx
      by_cases hmem : m ∈ xs
      · simp [hmem]
      · simp [hmem, btLookup_btInsert_self]
    · by_cases hmem : m ∈ xs
      · simp [hmem, hx]
      · simp [hmem, hx, btLookup_btInsert_ne acc x m none hx]

lemma seed_current_lookup_mem (team : List String) (m : String) (h : m ∈ team) :
    btLookup (seed_current team) m = some none := by
  unfold seed_current
  rw [seed_foldl_lookup]
  simp [h]

/-! Helper lemmas about the parser. -/

lemma parse_ok_some_cases (input out : List Token) (cmd : DecisionCommand)
    (h : DecisionCommand.parse input = (Except.ok (some cmd), out)) :
    (cmd = { resolution := Resolution.Merge, reversibility := Reversibility.Reversible } ∨
     cmd = { resolution := Resolution.Hold, reversibility := Reversibility.Reversible }) ∧
    out = nextToken (nextToken input) ∧
    is_token_eol (peekToken (nextToken input)) = true ∧
    (∃ w, peekToken input = some (Token.Word w)) := by
  cases input with
  | nil => simp [DecisionCommand.parse, peekToken] at h
  | cons t rest =>
    cases t with
    | Dot => simp [DecisionCommand.parse, peekToken] at h
    | EndOfLine => simp [DecisionCommand.parse, peekToken] at h
    | Word w =>
      simp only [DecisionCommand.parse, peekToken] at h
      split_ifs at h with h1 h2 h3 h4
      · simp only [Prod.mk.injEq, Except.ok.injEq, Option.some.injEq] at h
        obtain ⟨hc, ho⟩ := h
        subst hc
        subst ho
        exact ⟨Or.inl rfl, rfl, h2, ⟨w, rfl⟩⟩
      · simp at h
      · simp only [Prod.mk.injEq, Except.ok.injEq, Option.some.injEq] at h
        obtain ⟨hc, ho⟩ := h
        subst hc
        subst ho
        exact ⟨Or.inr rfl, rfl, h4, ⟨w, rfl⟩⟩
      · simp at h
      · simp at h

lemma parse_ok_reversible (input out : List Token) (cmd : DecisionCommand)
    (h : DecisionCommand.parse input = (Except.ok (some cmd), out)) :
    cmd.reversibility = Reversibility.Reversible := by
  rcases (parse_ok_some_cases input out cmd h).1 with h' | h' <;> rw [h']

lemma parse_ok_none_cursor (input out : List Token)
    (h : DecisionCommand.parse input = (Except.ok none, out)) : out = input := by
  cases input with
  | nil => simp [DecisionCommand.parse, peekToken] at h; exact h
  | cons t rest =>
    cases t with
    | Dot => simp [DecisionCommand.parse, peekToken] at h; exact h.symm
    | EndOfLine => simp [DecisionCommand.parse, peekToken] at h; exact h.symm
    | Word w =>
      simp only [DecisionCommand.parse, peekToken] at h
      split_ifs at h with h1 h2 h3 h4
      · simp at h
      · simp at h
      · simp at h
      · simp at h
      · simp only [Prod.mk.injEq] at h
        exact h.2.symm

lemma parse_error_cursor (input out : List Token) (e : ParseError)
    (h : DecisionCommand.parse input = (Except.error e, out)) : out = input := by
  cases input with
  | nil => simp [DecisionCommand.parse, peekToken] at h
  | cons t rest =>
    cases t with
    | Dot => simp [DecisionCommand.parse, peekToken] at h
    | EndOfLine => simp [DecisionCommand.parse, peekToken] at h
    | Word w =>
      simp only [DecisionCommand.parse, peekToken] at h
      split_ifs at h with h1 h2 h3 h4
      · simp at h
      · simp only [Prod.mk.injEq] at h
        exact h.2.symm
      · simp at h
      · simp only [Prod.mk.injEq] at h
        exact h.2.symm
      · simp at h

/-! Helper lemmas about the comment renderer. -/

lemma build_rows_isSome (current : List (String × Option UserStatus))
    (hist : List (String × List UserStatus)) (comment : String)
    (h : ∀ k s, (k, s) ∈ hist → (btLookup current k).isSome = true) :
    (build_rows current hist comment).isSome = true := by
  induction hist generalizing comment with
  | nil => simp [build_rows]
  | cons p rest ih =>
    obtain ⟨user, statuses⟩ := p
    have hu := h user statuses (List.mem_cons_self _ _)
    cases hl : btLookup current user with
    | none => rw [hl] at hu; simp at hu
    | some cs =>
      simp only [build_rows, hl]
      exact ih _ (fun k s hk => h k s (List.mem_cons_of_mem _ hk))

lemma build_rows_missing_none (current : List (String × Option UserStatus))
    (k : String) (s : List UserStatus) (hl : btLookup current k = none) :
    ∀ (hist : List (String × List UserStatus)) (comment : String),
      (k, s) ∈ hist → build_rows current hist comment = none := by
  intro hist
  induction hist with
  | nil => intro comment hmem; simp at hmem
  | cons p rest ih =>
    intro comment hmem
    obtain ⟨user, statuses⟩ := p
    rcases List.mem_cons.mp hmem with heq | hmem'
    · injection heq with h1 h2
      subst h1
      simp [build_rows, hl]
    · cases hl' : btLookup current user with
      | none => simp [build_rows, hl']
      | some cs =>
        simp only [build_rows, hl']
        exact ih _ hmem'

/-! Helper lemmas about the decision engine, and effect extractors. -/

/-- Extract the inserted job rows (name and due date) from an effect
list. -/
def job_of : Effect → Option (String × Int)
  | Effect.InsertJob name due _ => some (name, due)
  | _ => none

/-- Extract the inserted decision-state rows from an effect list. -/
def state_of : Effect → Option IssueDecisionState
  | Effect.InsertState s => some s
  | _ => none

/-- Extract the inserted job metadata values from an effect list. -/
def meta_of : Effect → Option Json
  | Effect.InsertJob _ _ m => some m
  | _ => none

lemma handle_command_open (env : Env) (cmd : DecisionCommand)
    (hm : env.is_team_member = some true) (hs : env.existing_state = none)
    (hr : cmd.resolution = Resolution.Merge) :
    handle_command env cmd =
      (Except.ok (),
       [Effect.InsertState (opened_state env cmd),
        Effect.InsertJob DECISION_PROCESS_JOB_NAME (opened_state env cmd).period_end
          (DecisionProcessActionMetadata.toJson (opened_metadata env)),
        Effect.PostComment ((build_status_comment [] (opened_current env)).getD "")]) := by
  unfold handle_command
  rw [hm, hs, hr]
  rfl

/-! Concrete fixtures shared by several claims. -/

/-- A concrete environment in which a team member opens a decision on an
issue with no existing decision state. -/
def open_env : Env :=
  { now := 0
    is_team_member := some true
    existing_state := none
    team_members := ["alice", "bob"]
    issue_number := 7
    repository_url := "https://example.com/repo"
    user_login := "alice" }

/-- The parsed merge command. -/
def cmd_merge : DecisionCommand :=
  { resolution := Resolution.Merge, reversibility := Reversibility.Reversible }

/-- The UserStatus vote of the golden renderer test in
src/handlers/decision.rs. -/
def golden_status (r : Resolution) : UserStatus :=
  { comment_id := "some-id"
    text := "I like this"
    reversibility := Reversibility.Reversible
    resolution := r }

/-- History map of the golden renderer test (BTreeMap iteration order). -/
def golden_history : List (String × List UserStatus) :=
  [("Barbara", [golden_status Resolution.Hold, golden_status Resolution.Merge]),
   ("Niklaus", [golden_status Resolution.Merge, golden_status Resolution.Hold])]

/-- Current-status map of the golden renderer test. -/
def golden_current : List (String × Option UserStatus) :=
  [("Barbara", some (golden_status Resolution.Merge)),
   ("Niklaus", some (golden_status Resolution.Merge))]

/-- Claim C4: DecisionCommand.parse yields the Merge/Reversible command
on "merge" and "merge.", the Hold/Reversible command on "hold", fails
with ExpectedEnd on "hold my beer", returns none without error or
consumption on "banana", and every successfully parsed command has
reversibility Reversible. -/
theorem decision_command_parse_cases :
    DecisionCommand.parse (tokenize "merge") =
      (Except.ok (some { resolution := Resolution.Merge,
                         reversibility := Reversibility.Reversible }), []) ∧
    DecisionCommand.parse (tokenize "merge.") =
      (Except.ok (some { resolution := Resolution.Merge,
                         reversibility := Reversibility.Reversible }), []) ∧
    DecisionCommand.parse (tokenize "hold") =
      (Except.ok (some { resolution := Resolution.Hold,
                         reversibility := Reversibility.Reversible }), []) ∧
    DecisionCommand.parse (tokenize "hold my beer") =
      (Except.error ParseError.ExpectedEnd, tokenize "hold my beer") ∧
    DecisionCommand.parse (tokenize "banana") = (Except.ok none, tokenize "banana") ∧
    (∀ input out cmd, DecisionCommand.parse input = (Except.ok (some cmd), out) →
      cmd.reversibility = Reversibility.Reversible) := by
  refine ⟨rfl, rfl, rfl, rfl, rfl, ?_⟩
  intro input out cmd h
  exact parse_ok_reversible input out cmd h

/-- Witness for C4: the universal part of the claim applied to the
concretely parsed "merge" command. -/
theorem decision_command_parse_cases_witness :
    cmd_merge.reversibility = Reversibility.Reversible :=
  decision_command_parse_cases.2.2.2.2.2 (tokenize "merge") [] cmd_merge rfl

/-- Claim C9: for every token stream, parse leaves the caller's cursor
at its original position whenever it returns none or fails with
ExpectedEnd, and advances it past exactly the consumed keyword token and
end token whenever it returns a parsed command. -/
theorem parse_cursor_discipline (input : List Token)
    (r : Except ParseError (Option DecisionCommand)) (out : List Token)
    (h : DecisionCommand.parse input = (r, out)) :
    (r = Except.ok none → out = input) ∧
    (∀ e, r = Except.error e → out = input) ∧
    (∀ cmd, r = Except.ok (some cmd) →
      out = nextToken (nextToken input) ∧
      is_token_eol (peekToken (nextToken input)) = true ∧
      ∃ w, peekToken input = some (Token.Word w)) := by
  refine ⟨?_, ?_, ?_⟩
  · intro hr
    subst hr
    exact parse_ok_none_cursor input out h
  · intro e hr
    subst hr
    exact parse_error_cursor input out e h
  · intro cmd hr
    subst hr
    exact (parse_ok_some_cases input out cmd h).2

/-- Witness for C9: the successful parse of "merge." commits the cursor
past the keyword and the dot. -/
theorem parse_cursor_discipline_witness :
    ([] : List Token) = nextToken (nextToken (tokenize "merge.")) ∧
    is_token_eol (peekToken (nextToken (tokenize "merge."))) = true := by
  obtain ⟨h1, h2, h3⟩ :=
    (parse_cursor_discipline (tokenize "merge.") (Except.ok (some cmd_merge)) [] rfl).2.2
      cmd_merge rfl
  exact ⟨h1, h2⟩

/-- Claim C10: build_status_comment succeeds (no panic) whenever every
history key has an entry in the current map, and panics (modelled none)
whenever some member has history but no entry in the current map. -/
theorem build_status_comment_safety :
    (∀ (history : List (String × List UserStatus))
       (current : List (String × Option UserStatus)),
      (∀ k s, (k, s) ∈ history → (btLookup current k).isSome = true) →
      (build_status_comment history current).isSome = true) ∧
    (∀ (history : List (String × List UserStatus))
       (current : List (String × Option UserStatus)) (k : String) (s : List UserStatus),
      (k, s) ∈ history → btLookup current k = none →
      build_status_comment history current = none) := by
  constructor
  · intro history current h
    exact build_rows_isSome current history _ h
  · intro history current k s hmem hl
    exact build_rows_missing_none current k s hl history _ hmem

/-- Witness for C10: the golden inputs satisfy the precondition and
render, while a member with history but no current entry panics. -/
theorem build_status_comment_safety_witness :
    (build_status_comment golden_history golden_current).isSome = true ∧
    build_status_comment [("alice", [])] [] = none := by
  constructor
  · refine build_status_comment_safety.1 golden_history golden_current ?_
    intro k s hmem
    rcases List.mem_cons.mp hmem with heq | hmem'
    · injection heq with h1 h2
      subst h1
      rfl
    · rcases List.mem_cons.mp hmem' with heq | hmem''
      · injection heq with h1 h2
        subst h1
        rfl
      · simp at hmem''
  · exact build_status_comment_safety.2 [("alice", [])] [] "alice" [] (by simp) rfl

/-- Claim C3 (code bug evaluation): the renderer reproduces the golden
string on the Barbara/Niklaus fixture, but a member present only in the
current map gets no row at all — the row loop iterates history keys
only, so the union-of-key-sets property of the claim fails. -/
theorem build_status_comment_drops_current_only_members :
    build_status_comment golden_history golden_current =
      some ("| Team member | State |\n|-------------|-------|\n| Barbara | ~~hold~~  ~~merge~~  **merge** |\n| Niklaus | ~~merge~~  ~~hold~~  **merge** |") ∧
    build_status_comment [] [("Alan", some (golden_status Resolution.Merge))] =
      some ("| Team member | State |\n|-------------|-------|") := by
  exact ⟨rfl, rfl⟩

/-! Fixtures for the re-vote claim. -/

/-- The first vote a member cast on the running decision. -/
def first_vote : UserStatus :=
  { comment_id := "c1"
    text := "first vote"
    reversibility := Reversibility.Reversible
    resolution := Resolution.Merge }

/-- An existing decision state in which alice has a current vote and an
empty history. -/
def revote_state : IssueDecisionState :=
  { issue_id := 7
    initiator := "alice"
    period_start := 0
    period_end := 864000
    current_statuses := [("alice", some first_vote), ("bob", none)]
    status_history := []
    reversibility := Reversibility.Reversible
    resolution := Resolution.Merge }

/-- The environment of alice's second vote: team member, issue already
carrying a decision state. -/
def revote_env : Env :=
  { now := 100
    is_team_member := some true
    existing_state := some revote_state
    team_members := ["alice", "bob"]
    issue_number := 7
    repository_url := "https://example.com/repo"
    user_login := "alice" }

/-- Claim C1 (code bug evaluation): when alice, who already holds a
current vote, votes a second time, the existing-state branch of
handle_command emits no effect at all — no state write, no job, no
comment — so her history never receives her first vote and her current
vote is never replaced by the second one. -/
theorem second_vote_is_noop :
    handle_command revote_env
        { resolution := Resolution.Hold, reversibility := Reversibility.Reversible } =
      (Except.ok (), []) ∧
    revote_state.status_history = [] ∧
    btLookup revote_state.current_statuses "alice" = some (some first_vote) ∧
    first_vote.resolution = Resolution.Merge := by
  exact ⟨rfl, rfl, rfl, rfl⟩

/-- Claim C5: opening a Merge decision at time T inserts a state with
period_start equal to T and period_end equal to T plus exactly ten
86400-second days, and schedules exactly one job, named
decision_process_action, due at that period_end. -/
theorem open_decision_window (env : Env) (cmd : DecisionCommand)
    (hm : env.is_team_member = some true) (hs : env.existing_state = none)
    (hr : cmd.resolution = Resolution.Merge) :
    (handle_command env cmd).2.filterMap state_of = [opened_state env cmd] ∧
    (opened_state env cmd).period_start = env.now ∧
    (opened_state env cmd).period_end = env.now + 10 * 86400 ∧
    (handle_command env cmd).2.filterMap job_of =
      [("decision_process_action", (opened_state env cmd).period_end)] := by
  rw [handle_command_open env cmd hm hs hr]
  refine ⟨?_, rfl, rfl, ?_⟩
  · simp [List.filterMap, state_of]
  · simp [List.filterMap, job_of, DECISION_PROCESS_JOB_NAME]

/-- Witness for C5: the window and single scheduled job of the concrete
open_env opening. -/
theorem open_decision_window_witness :
    (handle_command open_env cmd_merge).2.filterMap state_of =
      [opened_state open_env cmd_merge] ∧
    (opened_state open_env cmd_merge).period_start = open_env.now ∧
    (opened_state open_env cmd_merge).period_end = open_env.now + 10 * 86400 ∧
    (handle_command open_env cmd_merge).2.filterMap job_of =
      [("decision_process_action", (opened_state open_env cmd_merge).period_end)] :=
  open_decision_window open_env cmd_merge rfl rfl rfl

/-- Claim C6: whenever the invoking user is not a team member, or the
membership check fails (modelled by env.is_team_member not being
some true), handle_command posts exactly the rejection comment and
returns success, with no state write, no job, and no other comment. -/
theorem non_member_rejected (env : Env) (cmd : DecisionCommand)
    (h : env.is_team_member ≠ some true) :
    handle_command env cmd =
      (Except.ok (),
       [Effect.PostComment "Only team members can be part of the decision process."]) := by
  have hb : env.is_team_member.getD false = false := by
    cases hv : env.is_team_member with
    | none => rfl
    | some b =>
      cases b with
      | false => rfl
      | true => exact absurd hv h
  unfold handle_command
  rw [hb]
  rfl

/-- Witness for C6: a failed membership check (fail closed) yields
exactly the rejection comment. -/
theorem non_member_rejected_witness :
    handle_command
        { now := 0
          is_team_member := none
          existing_state := none
          team_members := []
          issue_number := 1
          repository_url := "https://example.com/repo"
          user_login := "mallory" } cmd_merge =
      (Except.ok (),
       [Effect.PostComment "Only team members can be part of the decision process."]) :=
  non_member_rejected _ cmd_merge (by simp)

/-- Claim C7: a parsed Merge command on an issue with no existing state
inserts exactly one decision state whose history is empty, whose
current-status map sends the invoking member to a fresh UserStatus
carrying the parsed command's resolution and reversibility, and sends
every other team member to no vote. -/
theorem open_decision_statuses (env : Env) (input out : List Token) (cmd : DecisionCommand)
    (hp : DecisionCommand.parse input = (Except.ok (some cmd), out))
    (hr : cmd.resolution = Resolution.Merge)
    (hm : env.is_team_member = some true) (hs : env.existing_state = none) :
    (handle_command env cmd).2.filterMap state_of = [opened_state env cmd] ∧
    (opened_state env cmd).status_history = [] ∧
    btLookup (opened_state env cmd).current_statuses env.user_login =
      some (some { comment_id := "comment_id"
                   text := "something"
                   reversibility := cmd.reversibility
                   resolution := cmd.resolution }) ∧
    (∀ m, m ∈ env.team_members → m ≠ env.user_login →
      btLookup (opened_state env cmd).current_statuses m = some none) := by
  have hrev := parse_ok_reversible input out cmd hp
  refine ⟨?_, rfl, ?_, ?_⟩
  · rw [handle_command_open env cmd hm hs hr]
    simp [List.filterMap, state_of]
  · show btLookup (opened_current env) env.user_login = _
    unfold opened_current
    rw [btLookup_btInsert_self]
    rw [hrev, hr]
    rfl
  · intro m hmem hne
    show btLookup (opened_current env) m = some none
    unfold opened_current
    rw [btLookup_btInsert_ne _ _ _ _ hne]
    exact seed_current_lookup_mem env.team_members m hmem

/-- Witness for C7: the concrete opening by alice in open_env, checked
for alice's own entry and for the other member bob. -/
theorem open_decision_statuses_witness :
    (handle_command open_env cmd_merge).2.filterMap state_of =
      [opened_state open_env cmd_merge] ∧
    (opened_state open_env cmd_merge).status_history = [] ∧
    btLookup (opened_state open_env cmd_merge).current_statuses "alice" =
      some (some { comment_id := "comment_id"
                   text := "something"
                   reversibility := cmd_merge.reversibility
                   resolution := cmd_merge.resolution }) ∧
    btLookup (opened_state open_env cmd_merge).current_statuses "bob" = some none := by
  obtain ⟨h1, h2, h3, h4⟩ :=
    open_decision_statuses open_env (tokenize "merge") [] cmd_merge rfl rfl rfl rfl
  exact ⟨h1, h2, h3, h4 "bob" (by simp [open_env]) (by decide)⟩

/-- The JSON object fields of the job metadata produced by opening a
decision in open_env. -/
def open_metadata_fields : List (String × Json) :=
  [("message", Json.str "some message"),
   ("get_issue_url", Json.str "https://example.com/repo/issues/7"),
   ("status", Json.str "Merge")]

/-- Counterexample to C2 as stated: the metadata actually scheduled by
handle_command carries its issue URL under the key get_issue_url, has no
issue_url key at all, and serializes the status as the variant name
Merge, not as merge or hold. -/
theorem metadata_shape_counterexample :
    (handle_command open_env cmd_merge).2.filterMap meta_of =
      [Json.obj open_metadata_fields] ∧
    get_field open_metadata_fields "issue_url" = none ∧
    get_field open_metadata_fields "status" = some (Json.str "Merge") ∧
    Json.str "Merge" ≠ Json.str "merge" ∧
    Json.str "Merge" ≠ Json.str "hold" := by
  refine ⟨rfl, rfl, rfl, ?_, ?_⟩
  · intro h
    injection h with h'
    exact absurd h' (by decide)
  · intro h
    injection h with h'
    exact absurd h' (by decide)

/-- Claim C2 (amended): the persisted job metadata is a JSON object of
the exact shape message (string), get_issue_url (string), status (the
string Merge or Hold), it round-trips exactly through serialization and
deserialization, and opening a decision schedules exactly one job whose
metadata is the serialization of the DecisionProcessActionMetadata the
engine builds. -/
theorem metadata_roundtrip :
    (∀ m : DecisionProcessActionMetadata,
      DecisionProcessActionMetadata.toJson m =
        Json.obj [("message", Json.str m.message),
                  ("get_issue_url", Json.str m.get_issue_url),
                  ("status", Resolution.toJson m.status)] ∧
      (Resolution.toJson m.status = Json.str "Merge" ∨
       Resolution.toJson m.status = Json.str "Hold") ∧
      DecisionProcessActionMetadata.fromJson (DecisionProcessActionMetadata.toJson m) =
        some m) ∧
    (∀ env cmd, env.is_team_member = some true → env.existing_state = none →
      cmd.resolution = Resolution.Merge →
      (handle_command env cmd).2.filterMap meta_of =
        [DecisionProcessActionMetadata.toJson (opened_metadata env)]) := by
  constructor
  · intro m
    refine ⟨rfl, ?_, ?_⟩
    · cases m.status with
      | Merge => exact Or.inl rfl
      | Hold => exact Or.inr rfl
    · cases m with
      | mk msg url st => cases st <;> rfl
  · intro env cmd hm hs hr
    rw [handle_command_open env cmd hm hs hr]
    simp [List.filterMap, meta_of]

/-- Witness for C2 (amended): the round-trip at a concrete metadata
value and the single scheduled metadata of the concrete opening. -/
theorem metadata_roundtrip_witness :
    DecisionProcessActionMetadata.fromJson
        (DecisionProcessActionMetadata.toJson
          { message := "some message"
            get_issue_url := "https://example.com/repo/issues/7"
            status := Resolution.Merge }) =
      some { message := "some message"
             get_issue_url := "https://example.com/repo/issues/7"
             status := Resolution.Merge } ∧
    (handle_command open_env cmd_merge).2.filterMap meta_of =
      [DecisionProcessActionMetadata.toJson (opened_metadata open_env)] :=
  ⟨(metadata_roundtrip.1 _).2.2, metadata_roundtrip.2 open_env cmd_merge rfl rfl rfl⟩

/-- Claim C8: handle_job succeeds with no side effects on names
registered to no handler; on the decision-process name it errors exactly
when the metadata fails to deserialize, merges on Merge and closes on
Hold after a successful issue fetch, and logs and succeeds with no
action on a fetch failure. -/
theorem handle_job_dispatch :
    (∀ (env : JobEnv) (name : String) (meta : Json),
      name ≠ "docs_update" → name ≠ "rustc_commits" → name ≠ DECISION_PROCESS_JOB_NAME →
      handle_job env name meta = (Except.ok (), [])) ∧
    (∀ (env : JobEnv) (meta : Json),
      DecisionProcessActionMetadata.fromJson meta = none →
      handle_job env DECISION_PROCESS_JOB_NAME meta = (Except.error (), [])) ∧
    (∀ (env : JobEnv) (meta : Json) (md : DecisionProcessActionMetadata) (issue : Issue),
      DecisionProcessActionMetadata.fromJson meta = some md →
      env.fetched_issue = some issue →
      handle_job env DECISION_PROCESS_JOB_NAME meta =
        (Except.ok (),
         [if md.status = Resolution.Merge then JobEffect.MergeIssue issue
          else JobEffect.CloseIssue issue])) ∧
    (∀ (env : JobEnv) (meta : Json) (md : DecisionProcessActionMetadata),
      DecisionProcessActionMetadata.fromJson meta = some md →
      env.fetched_issue = none →
      handle_job env DECISION_PROCESS_JOB_NAME meta = (Except.ok (), [])) := by
  refine ⟨?_, ?_, ?_, ?_⟩
  · intro env name meta h1 h2 h3
    unfold handle_job
    rw [if_neg h1, if_neg h2, if_neg h3]
  · intro env meta h
    unfold handle_job
    rw [if_neg (by decide : ¬(DECISION_PROCESS_JOB_NAME = "docs_update")),
        if_neg (by decide : ¬(DECISION_PROCESS_JOB_NAME = "rustc_commits")),
        if_pos rfl]
    unfold decision_process_handler
    rw [h]
  · intro env meta md issue h1 h2
    unfold handle_job
    rw [if_neg (by decide : ¬(DECISION_PROCESS_JOB_NAME = "docs_update")),
        if_neg (by decide : ¬(DECISION_PROCESS_JOB_NAME = "rustc_commits")),
        if_pos rfl]
    unfold decision_process_handler
    rw [h1, h2]
    cases hst : md.status with
    | Merge => simp [hst]
    | Hold => simp [hst]
  · intro env meta md h1 h2
    unfold handle_job
    rw [if_neg (by decide : ¬(DECISION_PROCESS_JOB_NAME = "docs_update")),
        if_neg (by decide : ¬(DECISION_PROCESS_JOB_NAME = "rustc_commits")),
        if_pos rfl]
    unfold decision_process_handler
    rw [h1, h2]

/-- Job environment in which the issue fetch fails. -/
def no_fetch_env : JobEnv := { fetched_issue := none }

/-- Job environment in which the issue fetch returns issue number 1. -/
def fetch_env : JobEnv := { fetched_issue := some { number := 1 } }

/-- A well-formed serialized job metadata value with Merge status. -/
def good_meta : Json :=
  DecisionProcessActionMetadata.toJson
    { message := "some message"
      get_issue_url := "https://example.com/repo/issues/7"
      status := Resolution.Merge }

/-- Witness for C8: an unregistered name, undecodable metadata, a
successful Merge dispatch, and a failed fetch, all at concrete
inputs. -/
theorem handle_job_dispatch_witness :
    handle_job no_fetch_env "unrelated_job" (Json.obj []) = (Except.ok (), []) ∧
    handle_job no_fetch_env DECISION_PROCESS_JOB_NAME (Json.str "garbage") =
      (Except.error (), []) ∧
    handle_job fetch_env DECISION_PROCESS_JOB_NAME good_meta =
      (Except.ok (), [JobEffect.MergeIssue { number := 1 }]) ∧
    handle_job no_fetch_env DECISION_PROCESS_JOB_NAME good_meta = (Except.ok (), []) := by
  refine ⟨?_, ?_, ?_, ?_⟩
  · exact handle_job_dispatch.1 no_fetch_env "unrelated_job" (Json.obj [])
      (by decide) (by decide) (by decide)
  · exact handle_job_dispatch.2.1 no_fetch_env (Json.str "garbage") rfl
  · have h := handle_job_dispatch.2.2.1 fetch_env good_meta
      { message := "some message"
        get_issue_url := "https://example.com/repo/issues/7"
        status := Resolution.Merge }
      { number := 1 } rfl rfl
    simpa using h
  · exact handle_job_dispatch.2.2.2 no_fetch_env good_meta
      { message := "some message"
        get_issue_url := "https://example.com/repo/issues/7"
        status := Resolution.Merge } rfl rfl
